import Mathlib

/-!
# Verification of the 3D wireframe transformation model

Shallow embedding of the geometric core of `3DModel.py`: wireframe shapes,
their homogeneous point matrices, the elementary 4×4 transform builders
(`perspective`, `hom_rotate_x/y/z`, `translate`), the composed transform
(`full_transform_matrix`) and the projector (`matrix_to_projection`),
together with proofs of the specified properties.
-/

namespace ThreeDModel

open Real Matrix

noncomputable section

/-- A point is a 3-tuple of reals (source: "a point is represented as a
3-element tuple"). -/
abbrev Point : Type := ℝ × ℝ × ℝ

/-- A line segment is a pair of points; a wireframe object is a list of
line segments. -/
abbrev Seg : Type := Point × Point

/-- The three fixed reference-axis edges (source: `guide_axes`). -/
def guide_axes : List Seg :=
  [((-0.75, 0, 0), (0.75, 0, 0)),
   ((0, -0.75, 0), (0, 0.75, 0)),
   ((0, 0, -0.75), (0, 0, 0.75))]

/-- Flatten a list of segments into its endpoint list, in order
(source: `sum(shape, [])`). -/
def flattenShape (s : List Seg) : List Point :=
  s.flatMap (fun e => [e.1, e.2])

/-- A rectangular 2D numpy array of reals: a row count, a column count and
the entries (entries outside the stated bounds are irrelevant junk). -/
structure NpMatrix where
  rows : ℕ
  cols : ℕ
  entry : ℕ → ℕ → ℝ

/-- Column `c` of a 4-row `NpMatrix`, as the list of its four entries. -/
def colOf (m : NpMatrix) (c : ℕ) : List ℝ :=
  [m.entry 0 c, m.entry 1 c, m.entry 2 c, m.entry 3 c]

/-- Source: `shape_to_hom_matrix` — appends `guide_axes` to the shape,
flattens the segment list into endpoint columns, and appends a row of 1s
to lift each point into homogeneous form. -/
def shape_to_hom_matrix (shape : List Seg) : NpMatrix :=
  let pts := flattenShape (shape ++ guide_axes)
  { rows := 4
    cols := pts.length
    entry := fun r c =>
      if r = 0 then (pts.getD c (0, 0, 0)).1
      else if r = 1 then (pts.getD c (0, 0, 0)).2.1
      else if r = 2 then (pts.getD c (0, 0, 0)).2.2
      else if r = 3 then 1
      else 0 }

/-- The global parameter dictionary read by `full_transform_matrix`
(source: `global_params`), modelled as a record of its 7 entries. -/
structure Params where
  d : ℝ
  tx : ℝ
  ty : ℝ
  tz : ℝ
  rx : ℝ
  ry : ℝ
  rz : ℝ

/-- The initial value of `global_params` in the source: distance 10, all
translations and rotations 0. -/
def global_params : Params :=
  { d := 10, tx := 0, ty := 0, tz := 0, rx := 0, ry := 0, rz := 0 }

/-- Source: `perspective(d)` — identity with the Z row zeroed and the
homogeneous row set to `[0, 0, -1/d, 1]`. -/
def perspective (d : ℝ) : Matrix (Fin 4) (Fin 4) ℝ :=
  !![1, 0, 0, 0;
     0, 1, 0, 0;
     0, 0, 0, 0;
     0, 0, -1 / d, 1]

/-- Source: `hom_rotate_x(theta)` — identity with rows 1 and 2 replaced by
the cosine/sine block. -/
def hom_rotate_x (θ : ℝ) : Matrix (Fin 4) (Fin 4) ℝ :=
  !![1, 0, 0, 0;
     0, Real.cos θ, -Real.sin θ, 0;
     0, Real.sin θ, Real.cos θ, 0;
     0, 0, 0, 1]

/-- Source: `hom_rotate_y(theta)` — identity with rows 0 and 2 replaced by
the cosine/sine block. -/
def hom_rotate_y (θ : ℝ) : Matrix (Fin 4) (Fin 4) ℝ :=
  !![Real.cos θ, 0, Real.sin θ, 0;
     0, 1, 0, 0;
     -Real.sin θ, 0, Real.cos θ, 0;
     0, 0, 0, 1]

/-- Source: `hom_rotate_z(theta)` — identity with rows 0 and 1 replaced by
the cosine/sine block. -/
def hom_rotate_z (θ : ℝ) : Matrix (Fin 4) (Fin 4) ℝ :=
  !![Real.cos θ, -Real.sin θ, 0, 0;
     Real.sin θ, Real.cos θ, 0, 0;
     0, 0, 1, 0;
     0, 0, 0, 1]

/-- Source: `translate(x, y, z)` — identity with the homogeneous column of
the top 3 rows set to `(x, y, z)`. -/
def translate (x y z : ℝ) : Matrix (Fin 4) (Fin 4) ℝ :=
  !![1, 0, 0, x;
     0, 1, 0, y;
     0, 0, 1, z;
     0, 0, 0, 1]

/-- Source: `np.linalg.multi_dot` on a nonempty list — the product of the matrices
in list order (numpy only optimizes the association, which matrix
associativity makes irrelevant). -/
def multi_dot : List (Matrix (Fin 4) (Fin 4) ℝ) → Matrix (Fin 4) (Fin 4) ℝ
  | [] => 1
  | h :: t => t.foldl (· * ·) h

/-- Source: `full_transform_matrix()` — `multi_dot` of perspective,
translate, rotate-x, rotate-y, rotate-z built from the global parameters
(here passed explicitly). -/
def full_transform_matrix (p : Params) : Matrix (Fin 4) (Fin 4) ℝ :=
  multi_dot
    [perspective p.d,
     translate p.tx p.ty p.tz,
     hom_rotate_x p.rx,
     hom_rotate_y p.ry,
     hom_rotate_z p.rz]

/-- The error the projector signals when its input matrix is malformed
(the shape assertions in the source; `InvalidShapeError` in the spec). -/
inductive ProjError where
  | invalidShape
  deriving DecidableEq

/-- The pairing loop at the end of `matrix_to_projection`: consecutive
elements are grouped two at a time (`j = 0, 2, 4, …` while `j < len-1`);
a trailing unpaired element is dropped. -/
def pairUp {α : Type} : List α → List (α × α)
  | a :: b :: rest => (a, b) :: pairUp rest
  | _ => []

/-- Source: `matrix_to_projection(m)` — asserts `m` has 4 rows and an even
number of columns, divides rows 0 and 1 of each column by row 3
(perspective divide), and pairs the resulting 2D points consecutively
into segments. -/
def matrix_to_projection (m : NpMatrix) :
    Except ProjError (List ((ℝ × ℝ) × (ℝ × ℝ))) :=
  if m.rows = 4 then
    if m.cols % 2 = 0 then
      .ok (pairUp ((List.range m.cols).map fun i =>
        (m.entry 0 i / m.entry 3 i, m.entry 1 i / m.entry 3 i)))
    else .error .invalidShape
  else .error .invalidShape

/-- The perspective divide of a single homogeneous column, as performed on
each column inside `matrix_to_projection`. -/
def projPoint (v : Fin 4 → ℝ) : ℝ × ℝ :=
  (v 0 / v 3, v 1 / v 3)

/-- The homogeneous origin point `(0, 0, 0, 1)` — the shared midpoint of
the three guide axes. -/
def homOrigin : Fin 4 → ℝ := ![0, 0, 0, 1]

end

/-! ## Helper lemmas -/

/-- The 4×4 identity matrix written out entrywise. -/
theorem one_fin_four : (1 : Matrix (Fin 4) (Fin 4) ℝ) =
    !![1, 0, 0, 0; 0, 1, 0, 0; 0, 0, 1, 0; 0, 0, 0, 1] := by
  ext i j
  fin_cases i <;> fin_cases j <;>
    simp [Matrix.one_apply, Matrix.vecHead, Matrix.vecTail]

/-- Rotating by 0 about the x-axis yields the identity. -/
theorem hom_rotate_x_zero : hom_rotate_x 0 = 1 := by
  rw [one_fin_four, hom_rotate_x]
  norm_num

/-- Rotating by 0 about the y-axis yields the identity. -/
theorem hom_rotate_y_zero : hom_rotate_y 0 = 1 := by
  rw [one_fin_four, hom_rotate_y]
  norm_num

/-- Rotating by 0 about the z-axis yields the identity. -/
theorem hom_rotate_z_zero : hom_rotate_z 0 = 1 := by
  rw [one_fin_four, hom_rotate_z]
  norm_num

/-- Translating by the zero vector yields the identity. -/
theorem translate_zero : translate 0 0 0 = 1 := by
  rw [one_fin_four, translate]

/-- The composed transform unfolded into the left-associated product of
its five factors. -/
theorem full_transform_matrix_eq (p : Params) :
    full_transform_matrix p =
      perspective p.d * translate p.tx p.ty p.tz *
        hom_rotate_x p.rx * hom_rotate_y p.ry * hom_rotate_z p.rz := rfl

/-! ## C1: composition order of the full transform -/

/-- C1: for every parameter state, `full_transform_matrix` equals the
matrix product, taken left to right,
`perspective(d) · translate(tx,ty,tz) · rotateX(rx) · rotateY(ry) · rotateZ(rz)`. -/
theorem full_transform_is_ordered_product (p : Params) :
    full_transform_matrix p =
      perspective p.d * translate p.tx p.ty p.tz *
        hom_rotate_x p.rx * hom_rotate_y p.ry * hom_rotate_z p.rz :=
  full_transform_matrix_eq p

/-! ## C3: shape of the perspective matrix -/

/-- C3: for nonzero `d`, the Z row of `perspective d` is all zeros, its
fourth row is `[0, 0, -1/d, 1]`, and the fourth coordinate of
`perspective d` applied to a homogeneous point `(x, y, z, 1)` is `1 - z/d`. -/
theorem perspective_shape (d : ℝ) (hd : d ≠ 0) :
    (∀ j, perspective d 2 j = 0) ∧
    perspective d 3 = ![0, 0, -1 / d, 1] ∧
    ∀ x y z : ℝ, ((perspective d).mulVec ![x, y, z, 1]) 3 = 1 - z / d := by
  refine ⟨?_, ?_, ?_⟩
  · intro j
    fin_cases j <;> simp [perspective, Matrix.vecHead, Matrix.vecTail]
  · funext j
    fin_cases j <;> simp [perspective, Matrix.vecHead, Matrix.vecTail]
  · intro x y z
    simp [perspective, Matrix.mulVec, dotProduct, Fin.sum_univ_four,
      Matrix.vecHead, Matrix.vecTail]
    ring

/-- Witness for C3 at `d = 10` and the point `(1, 2, 3, 1)`. -/
theorem perspective_shape_witness :
    (10 : ℝ) ≠ 0 ∧ ((perspective 10).mulVec ![1, 2, 3, 1]) 3 = 1 - 3 / 10 :=
  ⟨by norm_num, (perspective_shape 10 (by norm_num)).2.2 1 2 3⟩

/-! ## C7: rotations and translations compose with their inverses -/

/-- C7: for every angle θ, `rotateX(θ) · rotateX(-θ)` is the identity, and
likewise for Y and Z; and for all x, y, z,
`translate(x,y,z) · translate(-x,-y,-z)` is the identity. -/
theorem transform_inverses (θ x y z : ℝ) :
    hom_rotate_x θ * hom_rotate_x (-θ) = 1 ∧
    hom_rotate_y θ * hom_rotate_y (-θ) = 1 ∧
    hom_rotate_z θ * hom_rotate_z (-θ) = 1 ∧
    translate x y z * translate (-x) (-y) (-z) = 1 := by
  refine ⟨?_, ?_, ?_, ?_⟩ <;>
    · rw [one_fin_four]
      ext i j
      fin_cases i <;> fin_cases j <;>
        simp [hom_rotate_x, hom_rotate_y, hom_rotate_z, translate,
          Matrix.mul_apply, Fin.sum_univ_four, Real.cos_neg, Real.sin_neg,
          Matrix.vecHead, Matrix.vecTail] <;>
        nlinarith [Real.sin_sq_add_cos_sq θ]

/-! ## C8: translations compose additively -/

/-- C8: `translate(a,b,c) · translate(d,e,f) = translate(a+d, b+e, c+f)`. -/
theorem translate_mul_translate (a b c d e f : ℝ) :
    translate a b c * translate d e f = translate (a + d) (b + e) (c + f) := by
  ext i j
  fin_cases i <;> fin_cases j <;>
    simp [translate, Matrix.mul_apply, Fin.sum_univ_four,
      Matrix.vecHead, Matrix.vecTail] <;>
    ring

/-! ## C9: the default parameter state composes to perspective alone -/

/-- C9: with all parameters at their defaults (d = 10, everything else 0),
the composed transform equals `perspective 10` alone. -/
theorem full_transform_default :
    full_transform_matrix global_params = perspective 10 := by
  rw [full_transform_matrix_eq]
  show perspective 10 * translate 0 0 0 * hom_rotate_x 0 * hom_rotate_y 0 *
      hom_rotate_z 0 = perspective 10
  rw [translate_zero, hom_rotate_x_zero, hom_rotate_y_zero, hom_rotate_z_zero,
    mul_one, mul_one, mul_one, mul_one]

/-! ## C2: the projected origin is invariant under rotation-only changes -/

/-- Each axis rotation fixes the homogeneous origin. -/
theorem rotate_mulVec_homOrigin (θ : ℝ) :
    (hom_rotate_x θ).mulVec homOrigin = homOrigin ∧
    (hom_rotate_y θ).mulVec homOrigin = homOrigin ∧
    (hom_rotate_z θ).mulVec homOrigin = homOrigin := by
  refine ⟨?_, ?_, ?_⟩ <;>
    · funext i
      fin_cases i <;>
        simp [hom_rotate_x, hom_rotate_y, hom_rotate_z, homOrigin,
          Matrix.mulVec, dotProduct, Fin.sum_univ_four,
          Matrix.vecHead, Matrix.vecTail]

/-- The composed transform sends the homogeneous origin to
`(tx, ty, 0, 1 - tz/d)`: no rotation parameter occurs in the image. -/
theorem full_transform_mulVec_homOrigin (p : Params) :
    (full_transform_matrix p).mulVec homOrigin =
      ![p.tx, p.ty, 0, 1 - p.tz / p.d] := by
  rw [full_transform_matrix_eq, ← Matrix.mulVec_mulVec,
    (rotate_mulVec_homOrigin p.rz).2.2, ← Matrix.mulVec_mulVec,
    (rotate_mulVec_homOrigin p.ry).2.1, ← Matrix.mulVec_mulVec,
    (rotate_mulVec_homOrigin p.rx).1, ← Matrix.mulVec_mulVec]
  funext i
  fin_cases i <;>
    simp [perspective, translate, homOrigin, Matrix.mulVec, dotProduct,
      Fin.sum_univ_four, Matrix.vecHead, Matrix.vecTail] <;>
    ring

/-- C2: two parameter states that agree on d, tx, ty, tz (d nonzero, the
transformed homogeneous coordinate of the origin nonzero) and differ only
in the rotations give the same 2D projection of the homogeneous origin. -/
theorem projected_origin_rotation_invariant (p q : Params)
    (hd : p.d = q.d) (htx : p.tx = q.tx) (hty : p.ty = q.ty) (htz : p.tz = q.tz)
    (hdnz : p.d ≠ 0)
    (hw : ((full_transform_matrix p).mulVec homOrigin) 3 ≠ 0) :
    projPoint ((full_transform_matrix p).mulVec homOrigin) =
      projPoint ((full_transform_matrix q).mulVec homOrigin) := by
  rw [full_transform_mulVec_homOrigin, full_transform_mulVec_homOrigin,
    hd, htx, hty, htz]

/-- Witness for C2: translation (1, 2, 3) at distance 10, rotations
(1, 0, 0) against rotations (0, 2, 5). -/
theorem projected_origin_rotation_invariant_witness :
    ((full_transform_matrix ⟨10, 1, 2, 3, 1, 0, 0⟩).mulVec homOrigin) 3 ≠ 0 ∧
    projPoint ((full_transform_matrix ⟨10, 1, 2, 3, 1, 0, 0⟩).mulVec homOrigin) =
      projPoint ((full_transform_matrix ⟨10, 1, 2, 3, 0, 2, 5⟩).mulVec homOrigin) := by
  have hw : ((full_transform_matrix ⟨10, 1, 2, 3, 1, 0, 0⟩).mulVec homOrigin) 3 ≠ 0 := by
    rw [full_transform_mulVec_homOrigin]
    norm_num
  exact ⟨hw, projected_origin_rotation_invariant ⟨10, 1, 2, 3, 1, 0, 0⟩
    ⟨10, 1, 2, 3, 0, 2, 5⟩ rfl rfl rfl rfl (by norm_num) hw⟩

/-! ## C10: the Z row of the composed transform is all zeros -/

/-- If row 2 of `A` is all zeros then so is row 2 of `A * B`. -/
theorem row_two_zero_mul {n : ℕ} (A : Matrix (Fin 4) (Fin 4) ℝ)
    (B : Matrix (Fin 4) (Fin n) ℝ) (h : ∀ k, A 2 k = 0) :
    ∀ j, (A * B) 2 j = 0 := by
  intro j
  simp [Matrix.mul_apply, h]

/-- C10: for d nonzero, row 2 (the Z row) of the composed transform is all
zeros, hence row 2 of the transformed point matrix handed to the
Projector is all zeros. -/
theorem full_transform_z_row_zero (p : Params) (hd : p.d ≠ 0) :
    (∀ j, full_transform_matrix p 2 j = 0) ∧
    ∀ (n : ℕ) (B : Matrix (Fin 4) (Fin n) ℝ) (j : Fin n),
      (full_transform_matrix p * B) 2 j = 0 := by
  have hp : ∀ k, perspective p.d 2 k = 0 := by
    intro k
    fin_cases k <;> simp [perspective, Matrix.vecHead, Matrix.vecTail]
  have hmain : ∀ j, full_transform_matrix p 2 j = 0 := by
    rw [full_transform_matrix_eq]
    exact row_two_zero_mul _ _ (row_two_zero_mul _ _ (row_two_zero_mul _ _
      (row_two_zero_mul _ _ hp)))
  exact ⟨hmain, fun n B => row_two_zero_mul _ B hmain⟩

/-- Witness for C10 at the default parameters (d = 10). -/
theorem full_transform_z_row_zero_witness :
    global_params.d ≠ 0 ∧ full_transform_matrix global_params 2 0 = 0 := by
  have hd : global_params.d ≠ 0 := by norm_num [global_params]
  exact ⟨hd, (full_transform_z_row_zero global_params hd).1 0⟩

/-! ## Lemmas about the pairing loop -/

/-- Appending one further pair to an even-length list appends one further
segment to the paired-up result. -/
theorem pairUp_append_pair {α : Type} (a b : α) :
    ∀ l : List α, l.length % 2 = 0 →
      pairUp (l ++ [a, b]) = pairUp l ++ [(a, b)]
  | [], _ => rfl
  | [_], h => by simp at h
  | x :: y :: rest, h => by
    have hr : rest.length % 2 = 0 := by
      simp only [List.length_cons] at h
      omega
    show (x, y) :: pairUp (rest ++ [a, b]) = ((x, y) :: pairUp rest) ++ [(a, b)]
    rw [pairUp_append_pair a b rest hr, List.cons_append]

/-- Pairing up the image of `0, 1, …, 2n-1` yields the `n` consecutive
pairs `(f 0, f 1), (f 2, f 3), …`. -/
theorem pairUp_range_map {α : Type} (f : ℕ → α) :
    ∀ n : ℕ, pairUp ((List.range (2 * n)).map f) =
      (List.range n).map fun k => (f (2 * k), f (2 * k + 1))
  | 0 => rfl
  | n + 1 => by
    have h2 : 2 * (n + 1) = 2 * n + 1 + 1 := by omega
    rw [h2, List.range_succ, List.range_succ, List.map_append, List.map_append,
      List.append_assoc]
    have heven : ((List.range (2 * n)).map f).length % 2 = 0 := by
      rw [List.length_map, List.length_range]
      omega
    rw [show (List.map f [2 * n] ++ List.map f [2 * n + 1]) =
        [f (2 * n), f (2 * n + 1)] from rfl,
      pairUp_append_pair _ _ _ heven, pairUp_range_map f n, List.range_succ,
      List.map_append]
    simp

/-! ## C4: the projector divides by the homogeneous row and pairs columns -/

/-- C4: on a 4×(2N) matrix with nonzero fourth row, the projector returns
exactly N segments, column i mapping to
`(m[0][i]/m[3][i], m[1][i]/m[3][i])`, paired consecutively in input
column order. -/
theorem matrix_to_projection_spec (N : ℕ) (m : NpMatrix)
    (h4 : m.rows = 4) (hc : m.cols = 2 * N)
    (hnz : ∀ i, i < 2 * N → m.entry 3 i ≠ 0) :
    ∃ segs, matrix_to_projection m = .ok segs ∧ segs.length = N ∧
      segs = (List.range N).map fun k =>
        ((m.entry 0 (2 * k) / m.entry 3 (2 * k),
          m.entry 1 (2 * k) / m.entry 3 (2 * k)),
         (m.entry 0 (2 * k + 1) / m.entry 3 (2 * k + 1),
          m.entry 1 (2 * k + 1) / m.entry 3 (2 * k + 1))) := by
  refine ⟨_, ?_, ?_, rfl⟩
  · unfold matrix_to_projection
    rw [if_pos h4, if_pos (by omega : m.cols % 2 = 0), hc,
      pairUp_range_map (fun i => (m.entry 0 i / m.entry 3 i,
        m.entry 1 i / m.entry 3 i)) N]
  · simp [List.length_map, List.length_range]

/-- The concrete 4×2 matrix `[[1,1],[1,1],[0,0],[1,2]]` from the spec. -/
def exampleMatrix : NpMatrix :=
  { rows := 4
    cols := 2
    entry := fun r c =>
      (([[1, 1], [1, 1], [0, 0], [1, 2]] : List (List ℝ)).getD r []).getD c 0 }

/-- Witness for C4: on `[[1,1],[1,1],[0,0],[1,2]]` the projector returns
the single segment `((1,1), (0.5,0.5))`. -/
theorem matrix_to_projection_spec_witness :
    (∀ i, i < 2 * 1 → exampleMatrix.entry 3 i ≠ 0) ∧
    matrix_to_projection exampleMatrix = .ok [((1, 1), (0.5, 0.5))] := by
  have hnz : ∀ i, i < 2 * 1 → exampleMatrix.entry 3 i ≠ 0 := by
    intro i hi
    interval_cases i <;> norm_num [exampleMatrix]
  obtain ⟨segs, hok, _, hform⟩ :=
    matrix_to_projection_spec 1 exampleMatrix rfl rfl hnz
  refine ⟨hnz, ?_⟩
  rw [hok, hform]
  norm_num [exampleMatrix, List.range_succ]

/-! ## C6: the projector rejects malformed matrices -/

/-- C6: the projector signals `InvalidShapeError` exactly when its input
does not have 4 rows or has an odd number of columns; in that case no
perspective divide is performed. -/
theorem matrix_to_projection_invalid_shape (m : NpMatrix) :
    matrix_to_projection m = .error .invalidShape ↔
      (m.rows ≠ 4 ∨ m.cols % 2 = 1) := by
  unfold matrix_to_projection
  split_ifs with h1 h2 <;> simp <;> omega

/-! ## C5: shape of the homogeneous point matrix -/

/-- Flattening a list of segments yields twice as many points. -/
theorem flattenShape_length (s : List Seg) :
    (flattenShape s).length = 2 * s.length := by
  induction s with
  | nil => rfl
  | cons e t ih =>
    simp only [flattenShape, List.flatMap_cons, List.length_append,
      List.length_cons] at ih ⊢
    simp [ih]
    omega

/-- The flattened guide axes: six endpoint columns in X, Y, Z order. -/
theorem flattenShape_guide_axes :
    flattenShape guide_axes =
      [(-0.75, 0, 0), (0.75, 0, 0), (0, -0.75, 0), (0, 0.75, 0),
       (0, 0, -0.75), (0, 0, 0.75)] := rfl

/-- C5: for every wireframe, `shape_to_hom_matrix` returns a matrix with 4
rows and `2*(|edges|+3)` columns whose homogeneous row is all ones and
whose last 6 columns are the endpoints of the three reference-axis edges
in X, Y, Z order. -/
theorem shape_to_hom_matrix_spec (s : List Seg) :
    (shape_to_hom_matrix s).rows = 4 ∧
    (shape_to_hom_matrix s).cols = 2 * (s.length + 3) ∧
    (∀ c, c < (shape_to_hom_matrix s).cols →
      (shape_to_hom_matrix s).entry 3 c = 1) ∧
    colOf (shape_to_hom_matrix s) (2 * s.length) = [-0.75, 0, 0, 1] ∧
    colOf (shape_to_hom_matrix s) (2 * s.length + 1) = [0.75, 0, 0, 1] ∧
    colOf (shape_to_hom_matrix s) (2 * s.length + 2) = [0, -0.75, 0, 1] ∧
    colOf (shape_to_hom_matrix s) (2 * s.length + 3) = [0, 0.75, 0, 1] ∧
    colOf (shape_to_hom_matrix s) (2 * s.length + 4) = [0, 0, -0.75, 1] ∧
    colOf (shape_to_hom_matrix s) (2 * s.length + 5) = [0, 0, 0.75, 1] := by
  have hflat : flattenShape (s ++ guide_axes) =
      flattenShape s ++ flattenShape guide_axes := by
    simp [flattenShape]
  have hlen := flattenShape_length s
  have hget : ∀ j, (flattenShape (s ++ guide_axes)).getD
      (2 * s.length + j) (0, 0, 0) =
      (flattenShape guide_axes).getD j (0, 0, 0) := by
    intro j
    rw [hflat, List.getD_append_right _ _ _ _ (by omega)]
    congr 1
    omega
  have hget0 := hget 0
  rw [Nat.add_zero] at hget0
  refine ⟨rfl, ?_, ?_, ?_, ?_, ?_, ?_, ?_, ?_⟩
  · show (flattenShape (s ++ guide_axes)).length = 2 * (s.length + 3)
    rw [hflat, List.length_append, hlen, flattenShape_guide_axes]
    simp
    omega
  · intro c _
    norm_num [shape_to_hom_matrix]
  all_goals
    simp only [colOf, shape_to_hom_matrix, hget, hget0, flattenShape_guide_axes]
    norm_num

/-- Witness for C5 at the empty wireframe: the matrix is 4×6, its
homogeneous row is 1 at column 0, and its first column is the first
X-axis endpoint. -/
theorem shape_to_hom_matrix_spec_witness :
    0 < (shape_to_hom_matrix []).cols ∧
    (shape_to_hom_matrix []).entry 3 0 = 1 ∧
    colOf (shape_to_hom_matrix []) 0 = [-0.75, 0, 0, 1] := by
  obtain ⟨-, hcols, hrow3, hx, -⟩ := shape_to_hom_matrix_spec []
  have hpos : 0 < (shape_to_hom_matrix []).cols := by
    rw [hcols]
    norm_num
  exact ⟨hpos, hrow3 0 hpos, by simpa using hx⟩

end ThreeDModel
